import Mathlib

/-!
Verification of the hierarchical todo manager (`src/lib/todo_manager.py`,
backed by the SQLAlchemy store declared in `src/lib/database.py`).

The store is embedded as a list of records in insertion order.  UUIDs are
embedded as `Nat`, timestamps as `Nat`.
`session.query(...).filter_by(uuid=u).first()` is `List.find?`,
`filter_by(parent_uuid=p).all()` is `List.filter`, `session.add` appends.

Deletion is modelled at the unit-of-work level.  `database.py` declares
`TodoModel.children` with `foreign_keys=[parent_uuid]`, `remote_side=[uuid]`
and `cascade="all, delete-orphan", single_parent=True`: with the foreign key
on the local side and the primary key declared remote, the relationship
resolves as many-to-one — `x.children` is the row `x.parent_uuid` points at,
i.e. x's parent — so the ORM delete cascade configured on it runs up the
ancestor chain, and the un-cascaded one-to-many backref makes the flush null
out the `parent_uuid` of every surviving row that references a deleted row.
`ormCommitDelete` below embeds this flush: `session.delete` marks rows, and
the commit removes the marked rows together with their ancestor chains and
clears the parent reference of the surviving children of deleted rows.
The cascade loop's intermediate queries run against the unflushed session
(the sessionmaker has `autoflush=False`), i.e. against the original table.

The Python `get_children_recursive` terminates only on acyclic stores; it is
embedded with explicit fuel, and `db.length` fuel is proved sufficient for
every acyclic store below.
-/

namespace TodoApp

/-- A persisted record, from `database.py`'s `TodoModel`: columns
`uuid` (primary key), `title`, `description`, `parent_uuid` (nullable
self-reference), `created_at` and `updated_at` (both defaulted to "now"
at insertion time). -/
structure TodoModel where
  uuid : Nat
  title : String
  description : String
  parent_uuid : Option Nat
  created_at : Nat
  updated_at : Nat
deriving DecidableEq

/-- Modelled from the spec: the Pydantic API model `Todo` from the file
`src/lib/models.py`, which is absent from the sources (only imported).
Spec §3 gives the entity's attributes: the identifier, `title`,
`description`, and the optional `parent_id`; no further fields. -/
structure Todo where
  uuid : Nat
  title : String
  description : String
  parent_uuid : Option Nat
deriving DecidableEq

/-- The session's table of todo records, in insertion order. -/
abbrev Store := List TodoModel

/-- `self.db.query(TodoModel).filter_by(uuid=todo_uuid).first()`. -/
def queryFirstByUuid (db : Store) (u : Nat) : Option TodoModel :=
  db.find? (fun t => t.uuid == u)

/-- `TodoManager._model_to_pydantic` (source name `_model_to_pydantic`):
copies `uuid`, `title`, `description`, `parent_uuid`; the timestamp columns
are not carried over. -/
def model_to_pydantic (m : TodoModel) : Todo :=
  { uuid := m.uuid, title := m.title, description := m.description,
    parent_uuid := m.parent_uuid }

/-- `TodoManager.get_children`: uuids of the records whose `parent_uuid`
equals the given uuid. -/
def get_children (db : Store) (parent_uuid : Nat) : List Nat :=
  (db.filter (fun t => t.parent_uuid == some parent_uuid)).map (·.uuid)

/-- Fuel-indexed body of `TodoManager.get_children_recursive`:
`all_descendants = list(children)` followed by extending with each child's
recursively computed descendants. -/
def get_children_recursive_aux (fuel : Nat) (db : Store) (parent_uuid : Nat) :
    List Nat :=
  match fuel with
  | 0 => []
  | fuel + 1 =>
    let children := get_children db parent_uuid
    children ++ children.flatMap (get_children_recursive_aux fuel db)

/-- `TodoManager.get_children_recursive`.  The Python recursion terminates
precisely on acyclic stores; `db.length` fuel is proved sufficient there
(`descN_le`, `mem_get_children_recursive`). -/
def get_children_recursive (db : Store) (parent_uuid : Nat) : List Nat :=
  get_children_recursive_aux db.length db parent_uuid

/-- The `orphan` branch of `remove_todo`: every record whose `parent_uuid`
is the target's uuid has it cleared (`child_model.parent_uuid = None`),
a pending attribute update flushed at commit. -/
def orphanChildren (db : Store) (todo_uuid : Nat) : Store :=
  db.map (fun t =>
    if t.parent_uuid == some todo_uuid then { t with parent_uuid := none } else t)

/-- The parent uuid of the row with uuid `u`, the value the many-to-one
`TodoModel.children` relationship of `database.py` joins on. -/
def parentOfUuid (db : Store) (u : Nat) : Option Nat :=
  (queryFirstByUuid db u).bind (·.parent_uuid)

/-- Fuel-indexed walk up the parent chain of `u` (the rows the ORM delete
cascade configured on the many-to-one `children` relationship reaches from
a deleted row).  The chain is finite exactly on acyclic stores; `db.length`
fuel covers every chain there. -/
def ancestorChainAux : Nat → Store → Nat → List Nat
  | 0, _, _ => []
  | fuel + 1, db, u =>
    match parentOfUuid db u with
    | some p => p :: ancestorChainAux fuel db p
    | none => []

/-- The ancestor chain of `u`: parent, grandparent, …, root. -/
def ancestorChain (db : Store) (u : Nat) : List Nat :=
  ancestorChainAux db.length db u

/-- The rows removed by the flush when `marked` are the uuids passed to
`session.delete`: the marked rows plus, via the `cascade="all,
delete-orphan"` on the many-to-one `children` relationship, every row on a
marked row's ancestor chain. -/
def deadSet (db : Store) (marked : List Nat) : List Nat :=
  marked ++ marked.flatMap (ancestorChain db)

/-- Flush behavior on a surviving row: the one-to-many backref (`parent`)
carries no delete cascade, so the unit of work nulls out the `parent_uuid`
of rows whose referenced parent is being deleted. -/
def nullifyDead (dead : List Nat) (t : TodoModel) : TodoModel :=
  match t.parent_uuid with
  | some p => if p ∈ dead then { t with parent_uuid := none } else t
  | none => t

/-- `session.delete` of the rows in `marked` followed by `session.commit`:
the flush removes the marked rows and their ancestor chains and nulls the
parent reference of surviving children of deleted rows. -/
def ormCommitDelete (db : Store) (marked : List Nat) : Store :=
  (db.filter (fun t => decide (t.uuid ∉ deadSet db marked))).map
    (nullifyDead (deadSet db marked))

/-- The message of `remove_todo`'s not-found outcome. -/
def notFoundMsg (u : Nat) : String :=
  "Todo " ++ toString u ++ " not found"

/-- The message of `remove_todo`'s safe-mode refusal (quotes around the mode
names elided). -/
def safeErrMsg (n : Nat) : String :=
  "Cannot delete todo with " ++ toString n ++
    " child/children. Use delete_mode=cascade or orphan."

/-- The dict returned by `remove_todo`.  Each Python dict key becomes an
optional field: the key is present in the returned dict exactly when the
field is `some`. -/
structure RemoveResult where
  deleted : Bool
  error : Option String := none
  children_count : Option Nat := none
  deleted_count : Option Nat := none
  mode : Option String := none
  orphaned_count : Option Nat := none
deriving DecidableEq

/-- `TodoManager.remove_todo`, returning the result dict and the table
state after `session.commit`.  The cascade loop queries each descendant
uuid against the unflushed session (`autoflush=False`), i.e. against `db`
itself, marking each found row and incrementing `deleted_count`; the orphan
branch records pending `parent_uuid = None` updates on the direct children;
the final `session.delete(todo_model)` plus `commit` is `ormCommitDelete`
on the marked uuids (the target, plus the found descendants in cascade
mode), which also removes ancestor chains and re-roots surviving children
of deleted rows per the relationship declared in `database.py`. -/
def remove_todo (db : Store) (todo_uuid : Nat) (delete_mode : String) :
    RemoveResult × Store :=
  match queryFirstByUuid db todo_uuid with
  | none => ({ deleted := false, error := some (notFoundMsg todo_uuid) }, db)
  | some _ =>
    let children := get_children db todo_uuid
    if children ≠ [] ∧ delete_mode = "safe" then
      ({ deleted := false,
         error := some (safeErrMsg children.length),
         children_count := some children.length }, db)
    else
      let found :=
        if delete_mode = "cascade" then
          (get_children_recursive db todo_uuid).filter
            (fun d => (queryFirstByUuid db d).isSome)
        else []
      let updated :=
        if delete_mode = "orphan" then orphanChildren db todo_uuid else db
      ({ deleted := true,
         deleted_count := some (1 + found.length),
         mode := some delete_mode,
         orphaned_count := some (if delete_mode = "orphan" then children.length else 0) },
       ormCommitDelete updated (found ++ [todo_uuid]))

/-- `TodoManager.add_todo`.  `uuid4()` is the oracle argument `new_uuid`;
`datetime.utcnow` at insertion is the argument `now` (used for the
`created_at` and `updated_at` column defaults of `database.py`).  A raised
`ValueError` is the `Except.error` outcome, leaving the session state
unchanged. -/
def add_todo (db : Store) (title description : String)
    (parent_uuid : Option Nat) (new_uuid now : Nat) :
    Except String Todo × Store :=
  match parent_uuid with
  | some p =>
    match queryFirstByUuid db p with
    | none =>
      (Except.error
        ("Parent todo with uuid " ++ toString p ++ " does not exist."), db)
    | some _ =>
      let m : TodoModel :=
        { uuid := new_uuid, title := title, description := description,
          parent_uuid := parent_uuid, created_at := now, updated_at := now }
      (Except.ok (model_to_pydantic m), db ++ [m])
  | none =>
    let m : TodoModel :=
      { uuid := new_uuid, title := title, description := description,
        parent_uuid := parent_uuid, created_at := now, updated_at := now }
    (Except.ok (model_to_pydantic m), db ++ [m])

/-- `TodoManager.try_get_todo_by_uuid` (without the `with_children` view):
`none` is the not-found outcome. -/
def try_get_todo_by_uuid (db : Store) (todo_uuid : Nat) : Option Todo :=
  (queryFirstByUuid db todo_uuid).map model_to_pydantic

/-- Primary-key uniqueness of the `uuid` column. -/
def UuidNodup (db : Store) : Prop :=
  (db.map TodoModel.uuid).Nodup

/-- `rank` witnesses acyclicity: every parent reference points strictly
down in rank. -/
def RankOk (db : Store) (rank : Nat → Nat) : Prop :=
  ∀ t ∈ db, ∀ p, t.parent_uuid = some p → rank p < rank t.uuid

/-- The store is an acyclic forest: some rank function strictly decreases
along parent references (for a finite store this is equivalent to the
absence of parent-chain cycles, witnessed e.g. by tree depth). -/
def RankedAcyclic (db : Store) : Prop :=
  ∃ rank : Nat → Nat, RankOk db rank

/-- Referential integrity: every non-root record's parent exists. -/
def ParentsExist (db : Store) : Prop :=
  ∀ t ∈ db, ∀ p, t.parent_uuid = some p → ∃ s ∈ db, s.uuid = p

/-- `c` is a direct child of `p` in the store. -/
def childOf (db : Store) (c p : Nat) : Prop :=
  ∃ t ∈ db, t.uuid = c ∧ t.parent_uuid = some p

/-- `u` is a (strict, transitive) descendant of `p`: the transitive closure
of the direct-children relation. -/
inductive Desc (db : Store) : Nat → Nat → Prop where
  | base {p u : Nat} : childOf db u p → Desc db p u
  | step {p c u : Nat} : childOf db c p → Desc db c u → Desc db p u

/-- Descendant at chain length `n + 1` edges, peeling at the ancestor. -/
def DescN (db : Store) : Nat → Nat → Nat → Prop
  | 0, p, u => childOf db u p
  | n + 1, p, u => ∃ c, childOf db c p ∧ DescN db n c u

/-! ### Store-level lemmas -/

lemma queryFirst_eq_none_iff {db : Store} {u : Nat} :
    queryFirstByUuid db u = none ↔ ∀ t ∈ db, t.uuid ≠ u := by
  simp [queryFirstByUuid, List.find?_eq_none]

lemma queryFirst_eq_some {db : Store} {u : Nat} {t : TodoModel}
    (h : queryFirstByUuid db u = some t) : t ∈ db ∧ t.uuid = u :=
  ⟨List.mem_of_find?_eq_some h, by simpa using List.find?_some h⟩

lemma queryFirst_isSome {db : Store} {u : Nat}
    (h : ∃ t ∈ db, t.uuid = u) : ∃ t, queryFirstByUuid db u = some t := by
  rcases h with ⟨t, ht, hu⟩
  rcases Option.eq_none_or_eq_some (queryFirstByUuid db u) with hn | hs
  · exact absurd hu (queryFirst_eq_none_iff.mp hn t ht)
  · exact hs

lemma queryFirst_self {db : Store} (hN : UuidNodup db) {t : TodoModel}
    (ht : t ∈ db) : queryFirstByUuid db t.uuid = some t := by
  induction db with
  | nil => cases ht
  | cons a rest ih =>
    have hN' : a.uuid ∉ rest.map TodoModel.uuid ∧ UuidNodup rest := by
      simpa [UuidNodup, List.nodup_cons] using hN
    rcases List.mem_cons.mp ht with rfl | hmem
    · simp [queryFirstByUuid]
    · have hne : ¬ (a.uuid == t.uuid) = true := by
        simp only [beq_iff_eq]
        intro he
        exact hN'.1 (he ▸ List.mem_map_of_mem TodoModel.uuid hmem)
      rw [queryFirstByUuid,
        List.find?_cons_of_neg (p := fun x => x.uuid == t.uuid) rest hne]
      exact ih hN'.2 hmem

lemma find?_filter_of_imp {l : List TodoModel} {p q : TodoModel → Bool}
    (h : ∀ t, p t = true → q t = true) :
    (l.filter q).find? p = l.find? p := by
  induction l with
  | nil => rfl
  | cons a l ih =>
    by_cases hq : q a
    · rw [List.filter_cons_of_pos hq]
      by_cases hp : p a
      · rw [List.find?_cons_of_pos _ hp, List.find?_cons_of_pos _ hp]
      · rw [List.find?_cons_of_neg _ hp, List.find?_cons_of_neg _ hp]
        exact ih
    · have hp : ¬ p a = true := fun hpa => hq (h a hpa)
      rw [List.filter_cons_of_neg hq, List.find?_cons_of_neg _ hp]
      exact ih

lemma nullifyDead_uuid (dead : List Nat) (t : TodoModel) :
    (nullifyDead dead t).uuid = t.uuid := by
  cases hp : t.parent_uuid with
  | none => simp [nullifyDead, hp]
  | some p => by_cases h : p ∈ dead <;> simp [nullifyDead, hp, h]

lemma mem_ormCommitDelete {db : Store} {marked : List Nat} {t' : TodoModel} :
    t' ∈ ormCommitDelete db marked ↔
      ∃ t ∈ db, t.uuid ∉ deadSet db marked ∧
        t' = nullifyDead (deadSet db marked) t := by
  simp only [ormCommitDelete, List.mem_map, List.mem_filter,
    decide_eq_true_eq]
  constructor
  · rintro ⟨t, ⟨ht, hd⟩, rfl⟩
    exact ⟨t, ht, hd, rfl⟩
  · rintro ⟨t, ht, hd, rfl⟩
    exact ⟨t, ⟨ht, hd⟩, rfl⟩

/-- A uuid marked for deletion (or any uuid in the dead set) is gone after
the commit. -/
lemma queryFirst_orm_dead {db : Store} {marked : List Nat} {u : Nat}
    (hu : u ∈ deadSet db marked) :
    queryFirstByUuid (ormCommitDelete db marked) u = none := by
  refine queryFirst_eq_none_iff.mpr ?_
  intro t' ht'
  rcases mem_ormCommitDelete.mp ht' with ⟨t, _, hd, rfl⟩
  rw [nullifyDead_uuid]
  intro he
  exact hd (he ▸ hu)

lemma marked_mem_deadSet {db : Store} {marked : List Nat} {u : Nat}
    (h : u ∈ marked) : u ∈ deadSet db marked :=
  List.mem_append.mpr (Or.inl h)

/-- Referential integrity survives the commit: a surviving row's parent
reference is either nulled out (parent deleted) or still points at a
surviving row. -/
lemma parentsExist_ormCommitDelete {db : Store} {marked : List Nat}
    (hPE : ParentsExist db) : ParentsExist (ormCommitDelete db marked) := by
  intro t' ht' p hp
  rcases mem_ormCommitDelete.mp ht' with ⟨t, ht, _, rfl⟩
  have hpar : t.parent_uuid = some p ∧ p ∉ deadSet db marked := by
    cases hq : t.parent_uuid with
    | none => simp [nullifyDead, hq] at hp
    | some q =>
      by_cases hqd : q ∈ deadSet db marked
      · simp [nullifyDead, hq, hqd] at hp
      · have hqp : q = p := by simpa [nullifyDead, hq, hqd] using hp
        subst hqp
        exact ⟨rfl, hqd⟩
  rcases hPE t ht p hpar.1 with ⟨s, hs, hsu⟩
  refine ⟨nullifyDead (deadSet db marked) s,
    mem_ormCommitDelete.mpr ⟨s, hs, ?_, rfl⟩, by rw [nullifyDead_uuid, hsu]⟩
  rw [hsu]
  exact hpar.2

/-- The orphaning update preserves every record's uuid. -/
lemma orphanUpdate_uuid (T : Nat) (t : TodoModel) :
    ((if t.parent_uuid == some T then { t with parent_uuid := none }
      else t) : TodoModel).uuid = t.uuid := by
  by_cases h : t.parent_uuid = some T <;> simp [h]

lemma orphanChildren_uuid_map (db : Store) (T : Nat) :
    (orphanChildren db T).map TodoModel.uuid = db.map TodoModel.uuid := by
  rw [orphanChildren, List.map_map]
  refine List.map_congr_left ?_
  intro t _
  exact orphanUpdate_uuid T t

lemma uuidNodup_orphanChildren {db : Store} (hN : UuidNodup db) (T : Nat) :
    UuidNodup (orphanChildren db T) := by
  unfold UuidNodup
  rw [orphanChildren_uuid_map]
  exact hN

lemma find?_map_uuid {f : TodoModel → TodoModel}
    (hf : ∀ t, (f t).uuid = t.uuid) (l : List TodoModel) (v : Nat) :
    (l.map f).find? (fun t => t.uuid == v) =
      (l.find? (fun t => t.uuid == v)).map f := by
  induction l with
  | nil => rfl
  | cons a l ih =>
    rw [List.map_cons]
    by_cases ha : (a.uuid == v) = true
    · rw [List.find?_cons_of_pos (p := fun (t : TodoModel) => t.uuid == v) _
          (by simpa [hf a] using ha),
        List.find?_cons_of_pos (p := fun (t : TodoModel) => t.uuid == v) _ ha]
      rfl
    · rw [List.find?_cons_of_neg (p := fun (t : TodoModel) => t.uuid == v) _
          (by simpa [hf a] using ha),
        List.find?_cons_of_neg (p := fun (t : TodoModel) => t.uuid == v) _ ha]
      exact ih

lemma queryFirst_orphanChildren (db : Store) (T v : Nat) :
    queryFirstByUuid (orphanChildren db T) v =
      (queryFirstByUuid db v).map
        (fun t => if t.parent_uuid == some T then { t with parent_uuid := none }
                  else t) := by
  simp only [queryFirstByUuid, orphanChildren]
  exact find?_map_uuid (orphanUpdate_uuid T) db v

lemma mem_get_children {db : Store} {u p : Nat} :
    u ∈ get_children db p ↔ childOf db u p := by
  simp only [get_children, childOf, List.mem_map, List.mem_filter, beq_iff_eq]
  constructor
  · rintro ⟨t, ⟨ht, hp⟩, hu⟩
    exact ⟨t, ht, hu, hp⟩
  · rintro ⟨t, ht, hu, hp⟩
    exact ⟨t, ⟨ht, hp⟩, hu⟩

lemma get_children_nodup {db : Store} (hN : UuidNodup db) (p : Nat) :
    (get_children db p).Nodup :=
  hN.sublist ((db.filter_sublist).map TodoModel.uuid)

/-! ### Descendant-relation theory -/

lemma desc_trans {db : Store} {a b : Nat} (h1 : Desc db a b) :
    ∀ {c : Nat}, Desc db b c → Desc db a c := by
  induction h1 with
  | base h => intro c h2; exact Desc.step h h2
  | step h _ ih => intro c h2; exact Desc.step h (ih h2)

lemma desc_iff_descN {db : Store} {p u : Nat} :
    Desc db p u ↔ ∃ n, DescN db n p u := by
  constructor
  · intro h
    induction h with
    | base h => exact ⟨0, h⟩
    | step h _ ih =>
      rcases ih with ⟨n, hn⟩
      exact ⟨n + 1, _, h, hn⟩
  · rintro ⟨n, hn⟩
    induction n generalizing p with
    | zero => exact Desc.base hn
    | succ n ih =>
      rcases hn with ⟨c, hc, hcn⟩
      exact Desc.step hc (ih hcn)

lemma childOf_mem_uuid {db : Store} {c p : Nat} (h : childOf db c p) :
    c ∈ db.map TodoModel.uuid := by
  rcases h with ⟨t, ht, hu, _⟩
  exact hu ▸ List.mem_map_of_mem TodoModel.uuid ht

lemma desc_mem_store {db : Store} {p u : Nat} (h : Desc db p u) :
    ∃ t ∈ db, t.uuid = u := by
  induction h with
  | base h => rcases h with ⟨t, ht, hu, _⟩; exact ⟨t, ht, hu⟩
  | step _ _ ih => exact ih

lemma rank_lt_of_childOf {db : Store} {rank : Nat → Nat} (hR : RankOk db rank)
    {c p : Nat} (h : childOf db c p) : rank p < rank c := by
  rcases h with ⟨t, ht, hu, hp⟩
  exact hu ▸ hR t ht p hp

lemma rank_lt_of_desc {db : Store} {rank : Nat → Nat} (hR : RankOk db rank)
    {p u : Nat} (h : Desc db p u) : rank p < rank u := by
  induction h with
  | base h => exact rank_lt_of_childOf hR h
  | step h _ ih => exact lt_trans (rank_lt_of_childOf hR h) ih

lemma not_desc_self {db : Store} (hRA : RankedAcyclic db) (u : Nat) :
    ¬ Desc db u u := by
  rcases hRA with ⟨rank, hr⟩
  intro h
  exact lt_irrefl _ (rank_lt_of_desc hr h)

lemma descN_chain {db : Store} {rank : Nat → Nat} (hR : RankOk db rank) :
    ∀ {n p u : Nat}, DescN db n p u →
      ∃ l : List Nat, l.length = n + 1 ∧
        l.Pairwise (fun a b => rank a < rank b) ∧
        ∀ x ∈ l, x ∈ db.map TodoModel.uuid ∧ rank p < rank x := by
  intro n
  induction n with
  | zero =>
    intro p u h
    refine ⟨[u], rfl, by simp, ?_⟩
    intro x hx
    rw [List.mem_singleton.mp hx]
    exact ⟨childOf_mem_uuid h, rank_lt_of_childOf hR h⟩
  | succ n ih =>
    intro p u h
    rcases h with ⟨c, hc, hcn⟩
    rcases ih hcn with ⟨l, hlen, hpw, hmem⟩
    refine ⟨c :: l, by simp [hlen], ?_, ?_⟩
    · refine List.pairwise_cons.mpr ⟨?_, hpw⟩
      intro b hb
      exact (hmem b hb).2
    · intro x hx
      rcases List.mem_cons.mp hx with rfl | hx
      · exact ⟨childOf_mem_uuid hc, rank_lt_of_childOf hR hc⟩
      · rcases hmem x hx with ⟨h1, h2⟩
        exact ⟨h1, lt_trans (rank_lt_of_childOf hR hc) h2⟩

lemma descN_le {db : Store} (hRA : RankedAcyclic db) {n p u : Nat}
    (h : DescN db n p u) : n + 1 ≤ db.length := by
  rcases hRA with ⟨rank, hR⟩
  rcases descN_chain hR h with ⟨l, hlen, hpw, hmem⟩
  have hnd : l.Nodup := by
    refine hpw.imp ?_
    intro a b hab
    intro he
    rw [he] at hab
    exact lt_irrefl _ hab
  have hsub : l ⊆ db.map TodoModel.uuid := fun x hx => (hmem x hx).1
  have := (hnd.subperm hsub).length_le
  rw [hlen, List.length_map] at this
  exact this

lemma aux_sound {db : Store} :
    ∀ (fuel : Nat) {p u : Nat},
      u ∈ get_children_recursive_aux fuel db p → Desc db p u := by
  intro fuel
  induction fuel with
  | zero => intro p u h; simp [get_children_recursive_aux] at h
  | succ fuel ih =>
    intro p u h
    simp only [get_children_recursive_aux] at h
    rcases List.mem_append.mp h with h | h
    · exact Desc.base (mem_get_children.mp h)
    · rcases List.mem_flatMap.mp h with ⟨c, hc, hu⟩
      exact Desc.step (mem_get_children.mp hc) (ih hu)

lemma descN_mem_aux {db : Store} :
    ∀ {n p u : Nat}, DescN db n p u →
      ∀ {fuel : Nat}, n + 1 ≤ fuel →
        u ∈ get_children_recursive_aux fuel db p := by
  intro n
  induction n with
  | zero =>
    intro p u h fuel hf
    cases fuel with
    | zero => exact absurd hf (by omega)
    | succ fuel =>
      simp only [get_children_recursive_aux]
      exact List.mem_append.mpr (Or.inl (mem_get_children.mpr h))
  | succ n ih =>
    intro p u h fuel hf
    rcases h with ⟨c, hc, hcn⟩
    cases fuel with
    | zero => exact absurd hf (by omega)
    | succ fuel =>
      simp only [get_children_recursive_aux]
      refine List.mem_append.mpr (Or.inr ?_)
      exact List.mem_flatMap.mpr
        ⟨c, mem_get_children.mpr hc, ih hcn (Nat.le_of_succ_le_succ hf)⟩

lemma mem_get_children_recursive {db : Store} (hRA : RankedAcyclic db)
    {p u : Nat} :
    u ∈ get_children_recursive db p ↔ Desc db p u := by
  constructor
  · exact aux_sound db.length
  · intro h
    rcases desc_iff_descN.mp h with ⟨n, hn⟩
    exact descN_mem_aux hn (descN_le hRA hn)

lemma parent_unique {db : Store} (hN : UuidNodup db) {u p q : Nat}
    (h1 : childOf db u p) (h2 : childOf db u q) : p = q := by
  rcases h1 with ⟨t, ht, hu, hp⟩
  rcases h2 with ⟨s, hs, hu', hq⟩
  have hts : t = s := List.inj_on_of_nodup_map hN ht hs (by rw [hu, hu'])
  rw [hts] at hp
  exact Option.some.inj (hp.symm.trans hq)

lemma parent_absorb {db : Store} (hN : UuidNodup db) {p : Nat} :
    ∀ {q u : Nat}, Desc db q u → childOf db u p → q = p ∨ Desc db q p := by
  intro q u h
  induction h with
  | base h => intro hup; exact Or.inl (parent_unique hN h hup)
  | step h _ ih =>
    intro hup
    rcases ih hup with rfl | hqp
    · exact Or.inr (Desc.base h)
    · exact Or.inr (Desc.step h hqp)

lemma desc_tri {db : Store} (hN : UuidNodup db) {c c' u : Nat}
    (h1 : Desc db c u) :
    Desc db c' u → c = c' ∨ Desc db c c' ∨ Desc db c' c := by
  induction h1 with
  | base h =>
    intro h2
    rcases parent_absorb hN h2 h with heq | hd
    · exact Or.inl heq.symm
    · exact Or.inr (Or.inr hd)
  | step h _ ih =>
    intro h2
    rcases ih h2 with rfl | hdc' | hc'd
    · exact Or.inr (Or.inl (Desc.base h))
    · exact Or.inr (Or.inl (desc_trans (Desc.base h) hdc'))
    · rcases parent_absorb hN hc'd h with heq | hd'
      · exact Or.inl heq.symm
      · exact Or.inr (Or.inr hd')

/-- Two distinct children of the same parent cannot be ancestor and
descendant of one another; nor can a child of `p` descend from another
child of `p`. -/
lemma sibling_desc_false {db : Store} (hN : UuidNodup db)
    (hRA : RankedAcyclic db) {p c c' : Nat}
    (hc : childOf db c p) (hc' : childOf db c' p) (hd : Desc db c c') :
    False := by
  rcases parent_absorb hN hd hc' with rfl | hcp
  · exact not_desc_self hRA _ (Desc.base hc)
  · exact not_desc_self hRA c (desc_trans hcp (Desc.base hc))

lemma aux_nodup {db : Store} (hN : UuidNodup db) (hRA : RankedAcyclic db) :
    ∀ (fuel p : Nat), (get_children_recursive_aux fuel db p).Nodup := by
  intro fuel
  induction fuel with
  | zero => intro p; simp [get_children_recursive_aux]
  | succ fuel ih =>
    intro p
    simp only [get_children_recursive_aux]
    refine List.nodup_append.mpr ⟨get_children_nodup hN p, ?_, ?_⟩
    · refine List.nodup_flatMap.mpr ⟨fun c _ => ih c, ?_⟩
      refine List.Pairwise.imp_of_mem ?_ (get_children_nodup hN p)
      intro a b ha hb hne x hxa hxb
      have hca := mem_get_children.mp ha
      have hcb := mem_get_children.mp hb
      have hda := aux_sound fuel hxa
      have hdb := aux_sound fuel hxb
      rcases desc_tri hN hda hdb with rfl | h | h
      · exact hne rfl
      · exact sibling_desc_false hN hRA hca hcb h
      · exact sibling_desc_false hN hRA hcb hca h
    · intro x hx hx'
      rcases List.mem_flatMap.mp hx' with ⟨c, hc, hxc⟩
      exact sibling_desc_false hN hRA (mem_get_children.mp hc)
        (mem_get_children.mp hx) (aux_sound fuel hxc)

lemma get_children_recursive_nodup {db : Store} (hN : UuidNodup db)
    (hRA : RankedAcyclic db) (p : Nat) :
    (get_children_recursive db p).Nodup :=
  aux_nodup hN hRA db.length p

lemma get_children_recursive_leaf {db : Store} {p : Nat}
    (h : get_children db p = []) : get_children_recursive db p = [] := by
  unfold get_children_recursive
  cases hL : db.length with
  | zero => rfl
  | succ n => simp [get_children_recursive_aux, h]

/-! ### The ancestor chain of the ORM delete cascade -/

/-- Every uuid on the ancestor chain of `u` is a strict ancestor of `u`,
i.e. `u` is its descendant. -/
lemma ancestorChain_sound {db : Store} :
    ∀ (fuel : Nat) {u a : Nat},
      a ∈ ancestorChainAux fuel db u → Desc db a u := by
  intro fuel
  induction fuel with
  | zero => intro u a h; simp [ancestorChainAux] at h
  | succ fuel ih =>
    intro u a h
    cases hp : parentOfUuid db u with
    | none => simp [ancestorChainAux, hp] at h
    | some p =>
      have hchild : childOf db u p := by
        unfold parentOfUuid at hp
        cases hq : queryFirstByUuid db u with
        | none => rw [hq] at hp; exact absurd hp (by simp)
        | some s =>
          rw [hq] at hp
          rcases queryFirst_eq_some hq with ⟨hs, hsu⟩
          exact ⟨s, hs, hsu, by simpa using hp⟩
      rw [ancestorChainAux, hp] at h
      rcases List.mem_cons.mp h with rfl | h
      · exact Desc.base hchild
      · exact desc_trans (ih h) (Desc.base hchild)

lemma mem_ancestorChain_desc {db : Store} {u a : Nat}
    (h : a ∈ ancestorChain db u) : Desc db a u :=
  ancestorChain_sound db.length h

/-! ### Unfolding lemmas for remove_todo and add_todo -/

lemma remove_todo_not_found {db : Store} {u : Nat} (m : String)
    (h : queryFirstByUuid db u = none) :
    remove_todo db u m =
      ({ deleted := false, error := some (notFoundMsg u) }, db) := by
  simp [remove_todo, h]

lemma remove_todo_safe_blocked {db : Store} {u : Nat} {t : TodoModel}
    (h : queryFirstByUuid db u = some t) (hc : get_children db u ≠ []) :
    remove_todo db u "safe" =
      ({ deleted := false,
         error := some (safeErrMsg (get_children db u).length),
         children_count := some (get_children db u).length }, db) := by
  simp [remove_todo, h, hc]

lemma remove_todo_safe_leaf {db : Store} {u : Nat} {t : TodoModel}
    (h : queryFirstByUuid db u = some t) (hc : get_children db u = []) :
    remove_todo db u "safe" =
      ({ deleted := true, deleted_count := some 1, mode := some "safe",
         orphaned_count := some 0 }, ormCommitDelete db [u]) := by
  simp [remove_todo, h, hc]

lemma remove_todo_cascade {db : Store} {u : Nat} {t : TodoModel}
    (h : queryFirstByUuid db u = some t) :
    remove_todo db u "cascade" =
      ({ deleted := true,
         deleted_count := some (1 + ((get_children_recursive db u).filter
             (fun d => (queryFirstByUuid db d).isSome)).length),
         mode := some "cascade", orphaned_count := some 0 },
       ormCommitDelete db
         ((get_children_recursive db u).filter
             (fun d => (queryFirstByUuid db d).isSome) ++ [u])) := by
  simp [remove_todo, h]

lemma remove_todo_orphan {db : Store} {u : Nat} {t : TodoModel}
    (h : queryFirstByUuid db u = some t) :
    remove_todo db u "orphan" =
      ({ deleted := true, deleted_count := some 1, mode := some "orphan",
         orphaned_count := some (get_children db u).length },
       ormCommitDelete (orphanChildren db u) [u]) := by
  simp [remove_todo, h]

lemma remove_todo_other {db : Store} {u : Nat} {t : TodoModel} {m : String}
    (h : queryFirstByUuid db u = some t)
    (hm1 : m ≠ "safe") (hm2 : m ≠ "cascade") (hm3 : m ≠ "orphan") :
    remove_todo db u m =
      ({ deleted := true, deleted_count := some 1, mode := some m,
         orphaned_count := some 0 }, ormCommitDelete db [u]) := by
  simp [remove_todo, h, hm1, hm2, hm3]

/-- After any `remove_todo` call that reports `deleted = True`, the target
uuid is gone from the store: the flush deletes the marked target (the ORM
cascade only ever deletes additional rows, never fewer). -/
lemma remove_todo_success_lookup_none {db : Store} {u : Nat} {m : String}
    (_hN : UuidNodup db) (hdel : (remove_todo db u m).1.deleted = true) :
    queryFirstByUuid (remove_todo db u m).2 u = none := by
  cases hq : queryFirstByUuid db u with
  | none =>
    rw [remove_todo_not_found m hq] at hdel
    exact absurd hdel (by simp)
  | some t =>
    by_cases hm2 : m = "cascade"
    · subst hm2
      rw [remove_todo_cascade hq]
      exact queryFirst_orm_dead (marked_mem_deadSet (by simp))
    · by_cases hm3 : m = "orphan"
      · subst hm3
        rw [remove_todo_orphan hq]
        exact queryFirst_orm_dead (marked_mem_deadSet (by simp))
      · by_cases hm1 : m = "safe"
        · subst hm1
          by_cases hc : get_children db u = []
          · rw [remove_todo_safe_leaf hq hc]
            exact queryFirst_orm_dead (marked_mem_deadSet (by simp))
          · rw [remove_todo_safe_blocked hq hc] at hdel
            exact absurd hdel (by simp)
        · rw [remove_todo_other hq hm1 hm2 hm3]
          exact queryFirst_orm_dead (marked_mem_deadSet (by simp))

/-! ### A concrete store for witnesses

`1` is a root with children `2` and `4`; `3` is a child of `2`
(the "Project Alpha / Task 1 / Task 2 / Subtask 1.1" shape of the
repository's own test script). -/

def exDb : Store :=
  [ { uuid := 1, title := "Project Alpha", description := "Main project",
      parent_uuid := none, created_at := 0, updated_at := 0 },
    { uuid := 2, title := "Task 1", description := "First task",
      parent_uuid := some 1, created_at := 1, updated_at := 1 },
    { uuid := 3, title := "Subtask 1.1", description := "Subtask",
      parent_uuid := some 2, created_at := 2, updated_at := 2 },
    { uuid := 4, title := "Task 2", description := "Second task",
      parent_uuid := some 1, created_at := 3, updated_at := 3 } ]

lemma exDb_rank : RankOk exDb (fun u => u) := by
  intro t ht p hp
  simp only [exDb, List.mem_cons, List.not_mem_nil, or_false] at ht
  rcases ht with rfl | rfl | rfl | rfl <;> simp_all <;> omega

lemma exDb_ranked : RankedAcyclic exDb := ⟨fun u => u, exDb_rank⟩

lemma exDb_nodup : UuidNodup exDb := by
  show (exDb.map TodoModel.uuid).Nodup
  decide

/-- Every `remove_todo` result dict has one of exactly three shapes:
the not-found failure, the safe-mode refusal, or the success dict. -/
lemma remove_todo_fst_cases (db : Store) (u : Nat) (m : String) :
    (remove_todo db u m).1 =
        { deleted := false, error := some (notFoundMsg u) } ∨
    (remove_todo db u m).1 =
        { deleted := false,
          error := some (safeErrMsg (get_children db u).length),
          children_count := some (get_children db u).length } ∨
    ∃ k o, (remove_todo db u m).1 =
        { deleted := true, deleted_count := some k, mode := some m,
          orphaned_count := some o } := by
  cases hq : queryFirstByUuid db u with
  | none => exact Or.inl (by rw [remove_todo_not_found m hq])
  | some t =>
    by_cases hm2 : m = "cascade"
    · subst hm2
      exact Or.inr (Or.inr ⟨_, _, by rw [remove_todo_cascade hq]⟩)
    · by_cases hm3 : m = "orphan"
      · subst hm3
        exact Or.inr (Or.inr ⟨_, _, by rw [remove_todo_orphan hq]⟩)
      · by_cases hm1 : m = "safe"
        · subst hm1
          by_cases hc : get_children db u = []
          · exact Or.inr (Or.inr ⟨_, _, by rw [remove_todo_safe_leaf hq hc]⟩)
          · exact Or.inr (Or.inl (by rw [remove_todo_safe_blocked hq hc]))
        · exact Or.inr (Or.inr ⟨_, _, by rw [remove_todo_other hq hm1 hm2 hm3]⟩)

/-! ### Claim theorems -/

/-- C3 (code bug), the code evaluated at the failing input: safe-mode
deletion of the childless non-root todo `3` of `exDb`.  The claim — and the
manager's own contract — says only `3` is deleted and everything else is
unchanged; because `database.py` declares `TodoModel.children` as a
many-to-one (`remote_side=[uuid]`) with `cascade="all, delete-orphan"`,
contradicting its own "One-to-many relationship" docstring, the commit also
deletes the ancestors `2` and `1` and re-roots the unrelated todo `4`,
while the result dict still reports `deleted_count = 1`.  (The safe-mode
refusal branch on a todo with children is untouched by the bug: it returns
before any session mutation.) -/
theorem safe_leaf_ancestor_bug :
    (remove_todo exDb 3 "safe").1.deleted = true ∧
    (remove_todo exDb 3 "safe").1.deleted_count = some 1 ∧
    try_get_todo_by_uuid (remove_todo exDb 3 "safe").2 3 = none ∧
    try_get_todo_by_uuid (remove_todo exDb 3 "safe").2 2 = none ∧
    try_get_todo_by_uuid (remove_todo exDb 3 "safe").2 1 = none ∧
    queryFirstByUuid (remove_todo exDb 3 "safe").2 4 =
      some { uuid := 4, title := "Task 2", description := "Second task",
             parent_uuid := none, created_at := 3, updated_at := 3 } := by
  decide

/-- C4: `add_todo` with a `parent_uuid` that matches no record fails with
the "does not exist" `ValueError` and leaves the store exactly as it
was. -/
theorem create_invalid_parent_spec (db : Store) (title description : String)
    (p nu now : Nat) (hp : queryFirstByUuid db p = none) :
    (add_todo db title description (some p) nu now).1 =
      Except.error
        ("Parent todo with uuid " ++ toString p ++ " does not exist.") ∧
    (add_todo db title description (some p) nu now).2 = db := by
  simp [add_todo, hp]

theorem create_invalid_parent_witness :
    (add_todo exDb "t" "d" (some 99) 5 0).1 =
      Except.error
        ("Parent todo with uuid " ++ toString (99 : Nat) ++
          " does not exist.") ∧
    (add_todo exDb "t" "d" (some 99) 5 0).2 = exDb :=
  create_invalid_parent_spec exDb "t" "d" 99 5 0 (by decide)

/-- C6: removing a uuid that is not in the store returns the not-found
failure result and performs no mutation (the embedding is a total function,
so no exception can escape), and after any successful removal a second
`remove_todo` of the same uuid is again the not-found outcome with no
mutation. -/
theorem delete_not_found_spec :
    (∀ (db : Store) (u : Nat) (m : String), queryFirstByUuid db u = none →
      (remove_todo db u m).1.deleted = false ∧
      (remove_todo db u m).1.error = some (notFoundMsg u) ∧
      (remove_todo db u m).2 = db) ∧
    (∀ (db : Store) (u : Nat) (m m' : String), UuidNodup db →
      (remove_todo db u m).1.deleted = true →
      (remove_todo (remove_todo db u m).2 u m').1.deleted = false ∧
      (remove_todo (remove_todo db u m).2 u m').1.error =
        some (notFoundMsg u) ∧
      (remove_todo (remove_todo db u m).2 u m').2 =
        (remove_todo db u m).2) := by
  constructor
  · intro db u m h
    rw [remove_todo_not_found m h]
    exact ⟨rfl, rfl, rfl⟩
  · intro db u m m' hN hdel
    have h2 := remove_todo_success_lookup_none hN hdel
    rw [remove_todo_not_found m' h2]
    exact ⟨rfl, rfl, rfl⟩

theorem delete_not_found_witness :
    ((remove_todo exDb 99 "cascade").1.deleted = false ∧
      (remove_todo exDb 99 "cascade").1.error = some (notFoundMsg 99) ∧
      (remove_todo exDb 99 "cascade").2 = exDb) ∧
    (remove_todo (remove_todo exDb 3 "safe").2 3 "safe").1.error =
      some (notFoundMsg 3) := by
  have h1 := delete_not_found_spec.1 exDb 99 "cascade" (by decide)
  have h2 := delete_not_found_spec.2 exDb 3 "safe" "safe" exDb_nodup (by decide)
  exact ⟨h1, h2.2.1⟩

/-- C8 counterexample: the not-found failure dict contains only the
`deleted` and `error` keys — `deleted_count`, `orphaned_count` and `mode`
are absent, refuting the claim that every result carries all of them. -/
theorem remove_result_shape_counterexample :
    (remove_todo [] 0 "safe").1.deleted = false ∧
    (remove_todo [] 0 "safe").1.error.isSome = true ∧
    (remove_todo [] 0 "safe").1.deleted_count = none ∧
    (remove_todo [] 0 "safe").1.orphaned_count = none ∧
    (remove_todo [] 0 "safe").1.mode = none := by decide

/-- C8 (amended): a successful result carries `deleted = True`,
`deleted_count`, `orphaned_count` and `mode` and no `error`; a failure
result carries `deleted = False` and an `error` (plus `children_count` for
the safe-mode refusal) and never the count or mode keys. -/
theorem remove_result_shape (db : Store) (u : Nat) (m : String) :
    ((remove_todo db u m).1.deleted = true →
      (remove_todo db u m).1.deleted_count.isSome = true ∧
      (remove_todo db u m).1.orphaned_count.isSome = true ∧
      (remove_todo db u m).1.mode = some m ∧
      (remove_todo db u m).1.error = none) ∧
    ((remove_todo db u m).1.deleted = false →
      (remove_todo db u m).1.error.isSome = true ∧
      (remove_todo db u m).1.deleted_count = none ∧
      (remove_todo db u m).1.orphaned_count = none ∧
      (remove_todo db u m).1.mode = none) := by
  rcases remove_todo_fst_cases db u m with h | h | ⟨k, o, h⟩ <;> rw [h] <;>
    constructor <;> intro hd <;> simp_all

theorem remove_result_shape_witness :
    (remove_todo exDb 4 "cascade").1.deleted_count.isSome = true ∧
    (remove_todo exDb 99 "safe").1.deleted_count = none :=
  ⟨((remove_result_shape exDb 4 "cascade").1 (by decide)).1,
    ((remove_result_shape exDb 99 "safe").2 (by decide)).2.1⟩

/-- C1 (code bug), the code evaluated at the failing input: cascade-delete
of the non-root todo `2` of `exDb`, whose subtree is `{2, 3}`.  The claim —
and the manager's contract — says exactly the subtree is removed
(`deleted_count = 2`) and the todos outside it (`1` and `4`) are unchanged;
because `database.py` declares `TodoModel.children` as a many-to-one
(`remote_side=[uuid]`) with `cascade="all, delete-orphan"`, contradicting
its own "One-to-many relationship" docstring, the commit also deletes the
ancestor `1` and re-roots the sibling `4`, while the result dict still
reports `deleted_count = 2`. -/
theorem cascade_ancestor_bug :
    (remove_todo exDb 2 "cascade").1.deleted = true ∧
    (remove_todo exDb 2 "cascade").1.deleted_count = some 2 ∧
    try_get_todo_by_uuid (remove_todo exDb 2 "cascade").2 2 = none ∧
    try_get_todo_by_uuid (remove_todo exDb 2 "cascade").2 3 = none ∧
    try_get_todo_by_uuid (remove_todo exDb 2 "cascade").2 1 = none ∧
    queryFirstByUuid (remove_todo exDb 2 "cascade").2 4 =
      some { uuid := 4, title := "Task 2", description := "Second task",
             parent_uuid := none, created_at := 3, updated_at := 3 } := by
  decide

/-- C2 (code bug), the code evaluated at the failing input: orphan-delete
of the non-root todo `2` of `exDb`.  The claim — and the manager's
contract — says only `2` is deleted, its direct child `3` is re-rooted,
and `1` and `4` are unchanged; because of the many-to-one
`cascade="all, delete-orphan"` relationship of `database.py` the commit
also deletes the ancestor `1` and re-roots `4`, while the result dict still
reports `deleted_count = 1` and `orphaned_count = 1`. -/
theorem orphan_ancestor_bug :
    (remove_todo exDb 2 "orphan").1.deleted = true ∧
    (remove_todo exDb 2 "orphan").1.deleted_count = some 1 ∧
    (remove_todo exDb 2 "orphan").1.orphaned_count = some 1 ∧
    try_get_todo_by_uuid (remove_todo exDb 2 "orphan").2 2 = none ∧
    try_get_todo_by_uuid (remove_todo exDb 2 "orphan").2 1 = none ∧
    queryFirstByUuid (remove_todo exDb 2 "orphan").2 3 =
      some { uuid := 3, title := "Subtask 1.1", description := "Subtask",
             parent_uuid := none, created_at := 2, updated_at := 2 } ∧
    queryFirstByUuid (remove_todo exDb 2 "orphan").2 4 =
      some { uuid := 4, title := "Task 2", description := "Second task",
             parent_uuid := none, created_at := 3, updated_at := 3 } := by
  decide

/-- C5: in any acyclic forest, `get_children_recursive` returns, as a set,
exactly the transitive closure `Desc` of the direct-children relation
(`get_children` membership is the direct-children relation), with no
duplicate identifiers, and the empty sequence on a leaf. -/
theorem get_descendants_spec (db : Store) (id : Nat)
    (hN : UuidNodup db) (hRA : RankedAcyclic db) :
    (∀ u, u ∈ get_children_recursive db id ↔ Desc db id u) ∧
    (∀ c q, c ∈ get_children db q ↔ childOf db c q) ∧
    (get_children_recursive db id).Nodup ∧
    (get_children db id = [] → get_children_recursive db id = []) :=
  ⟨fun _ => mem_get_children_recursive hRA,
   fun _ _ => mem_get_children,
   get_children_recursive_nodup hN hRA id,
   get_children_recursive_leaf⟩

theorem get_descendants_witness :
    (3 ∈ get_children_recursive exDb 1 ↔ Desc exDb 1 3) ∧
    (get_children_recursive exDb 1).Nodup ∧
    (get_children exDb 3 = [] → get_children_recursive exDb 3 = []) := by
  have h1 := get_descendants_spec exDb 1 exDb_nodup exDb_ranked
  have h3 := get_descendants_spec exDb 3 exDb_nodup exDb_ranked
  exact ⟨h1.1 3, h1.2.2.1, h3.2.2.2⟩

lemma exDb_parents : ParentsExist exDb := by
  intro t ht p hp
  simp only [exDb, List.mem_cons, List.not_mem_nil, or_false] at ht
  rcases ht with rfl | rfl | rfl | rfl
  · cases hp
  · cases hp
    decide
  · cases hp
    decide
  · cases hp
    decide

/-- C7 counterexample: after deleting todo `2` of `exDb` with the
unrecognized mode "purge", the former direct child `3` does NOT keep a
`parent_uuid` referencing the deleted uuid `2` — the flush nulls it out —
refuting the claimed dangling reference and invariant violation. -/
theorem unknown_mode_counterexample :
    (remove_todo exDb 2 "purge").1.deleted = true ∧
    (remove_todo exDb 2 "purge").1.deleted_count = some 1 ∧
    queryFirstByUuid (remove_todo exDb 2 "purge").2 3 =
      some { uuid := 3, title := "Subtask 1.1", description := "Subtask",
             parent_uuid := none, created_at := 2, updated_at := 2 } := by
  decide

/-- C7 (amended): the mode string is never validated — any mode other than
safe, cascade and orphan succeeds on an existing target, reporting
`deleted = True`, `deleted_count = 1`, `orphaned_count = 0` and the mode
echoed back — but no dangling reference results: after the commit no
surviving record references the target, every former direct child survives
re-rooted (`parent_uuid` cleared by the flush), and referential integrity
(`ParentsExist`) is preserved; the flush additionally deletes the target's
ancestor chain. -/
theorem unknown_mode_spec (db : Store) (T : Nat) (m : String)
    (hRA : RankedAcyclic db)
    (hT : ∃ t ∈ db, t.uuid = T)
    (hm1 : m ≠ "safe") (hm2 : m ≠ "cascade") (hm3 : m ≠ "orphan") :
    (remove_todo db T m).1.deleted = true ∧
    (remove_todo db T m).1.deleted_count = some 1 ∧
    (remove_todo db T m).1.orphaned_count = some 0 ∧
    (remove_todo db T m).1.mode = some m ∧
    queryFirstByUuid (remove_todo db T m).2 T = none ∧
    (∀ r' ∈ (remove_todo db T m).2, r'.parent_uuid ≠ some T) ∧
    (∀ r ∈ db, r.parent_uuid = some T →
      ∃ r' ∈ (remove_todo db T m).2,
        r'.uuid = r.uuid ∧ r'.parent_uuid = none) ∧
    (ParentsExist db → ParentsExist (remove_todo db T m).2) := by
  rcases queryFirst_isSome hT with ⟨t, ht⟩
  rw [remove_todo_other ht hm1 hm2 hm3]
  have hTdead : T ∈ deadSet db [T] := marked_mem_deadSet (by simp)
  refine ⟨rfl, rfl, rfl, rfl, queryFirst_orm_dead hTdead, ?_, ?_,
    fun hPE => parentsExist_ormCommitDelete hPE⟩
  · intro r' hr' he
    rcases mem_ormCommitDelete.mp hr' with ⟨r, _, _, rfl⟩
    cases hq : r.parent_uuid with
    | none => simp [nullifyDead, hq] at he
    | some q =>
      by_cases hqd : q ∈ deadSet db [T]
      · simp [nullifyDead, hq, hqd] at he
      · have hqT : q = T := by simpa [nullifyDead, hq, hqd] using he
        exact hqd (hqT ▸ hTdead)
  · intro r hr hp
    have hchild : childOf db r.uuid T := ⟨r, hr, rfl, hp⟩
    have halive : r.uuid ∉ deadSet db [T] := by
      intro hd
      rcases List.mem_append.mp hd with h1 | h1
      · have hrT : r.uuid = T := by simpa using h1
        exact not_desc_self hRA T (Desc.base (hrT ▸ hchild))
      · rcases List.mem_flatMap.mp h1 with ⟨mk, hmk, hchain⟩
        have hmkT : mk = T := by simpa using hmk
        subst hmkT
        exact not_desc_self hRA r.uuid
          (desc_trans (mem_ancestorChain_desc hchain) (Desc.base hchild))
    refine ⟨nullifyDead (deadSet db [T]) r,
      mem_ormCommitDelete.mpr ⟨r, hr, halive, rfl⟩,
      nullifyDead_uuid _ r, ?_⟩
    simp [nullifyDead, hp, hTdead]

theorem unknown_mode_witness :
    (remove_todo exDb 2 "purge").1.deleted = true ∧
    (remove_todo exDb 2 "purge").1.deleted_count = some 1 ∧
    (remove_todo exDb 2 "purge").1.orphaned_count = some 0 ∧
    (∀ r' ∈ (remove_todo exDb 2 "purge").2, r'.parent_uuid ≠ some 2) ∧
    ParentsExist (remove_todo exDb 2 "purge").2 := by
  have h := unknown_mode_spec exDb 2 "purge" exDb_ranked
    (by decide) (by decide) (by decide) (by decide)
  exact ⟨h.1, h.2.1, h.2.2.1, h.2.2.2.2.2.1, h.2.2.2.2.2.2.2 exDb_parents⟩

/-- C9 counterexample: `add_todo` with an empty title succeeds and creates
a record — it does not fail with a validation error, and the store grows. -/
theorem create_empty_title_counterexample :
    (add_todo [] "" "d" none 7 0).1 =
      Except.ok { uuid := 7, title := "", description := "d",
                  parent_uuid := none } ∧
    (add_todo [] "" "d" none 7 0).2.length = 1 :=
  ⟨rfl, rfl⟩

/-- C9 (amended): `add_todo` performs no title validation at all — any
title, the empty string included, is accepted: with an absent or existing
parent the call succeeds and appends exactly one record carrying that
title. -/
theorem create_no_title_validation (db : Store) (title description : String)
    (parent : Option Nat) (nu now : Nat)
    (hp : ∀ p, parent = some p → ∃ t ∈ db, t.uuid = p) :
    (add_todo db title description parent nu now).1 =
      Except.ok { uuid := nu, title := title, description := description,
                  parent_uuid := parent } ∧
    (add_todo db title description parent nu now).2 =
      db ++ [{ uuid := nu, title := title, description := description,
               parent_uuid := parent, created_at := now,
               updated_at := now }] := by
  cases parent with
  | none => exact ⟨rfl, rfl⟩
  | some p =>
    rcases queryFirst_isSome (hp p rfl) with ⟨t, ht⟩
    simp [add_todo, ht, model_to_pydantic]

theorem create_no_title_validation_witness :
    (add_todo exDb "" "d" (some 1) 9 4).1 =
      Except.ok { uuid := 9, title := "", description := "d",
                  parent_uuid := some 1 } ∧
    (add_todo exDb "" "d" (some 1) 9 4).2 =
      exDb ++ [{ uuid := 9, title := "", description := "d",
                 parent_uuid := some 1, created_at := 4,
                 updated_at := 4 }] :=
  create_no_title_validation exDb "" "d" (some 1) 9 4
    (fun p hp => by cases hp; decide)

/-- C10 counterexample: the value returned by `add_todo` is identical for
two different call instants while the persisted records differ, and
`_model_to_pydantic` maps records differing only in their timestamps to
the same representation — the returned representation does not contain
the creation or last-update instants. -/
theorem create_timestamps_counterexample :
    (add_todo [] "a" "b" none 1 5).1 = (add_todo [] "a" "b" none 1 7).1 ∧
    (add_todo [] "a" "b" none 1 5).2 ≠ (add_todo [] "a" "b" none 1 7).2 ∧
    model_to_pydantic
        { uuid := 1, title := "a", description := "b", parent_uuid := none,
          created_at := 5, updated_at := 5 } =
      model_to_pydantic
        { uuid := 1, title := "a", description := "b", parent_uuid := none,
          created_at := 7, updated_at := 9 } := by
  refine ⟨rfl, ?_, rfl⟩
  decide

/-- C10 (amended): a successful `add_todo` with a fresh identifier persists
exactly one new record whose `created_at` and `updated_at` are both the
call instant, keeps identifiers unique, and returns the representation
carrying the assigned identifier, title, description and parent — without
the timestamps, which exist only on the persisted record. -/
theorem create_success_spec (db : Store) (title description : String)
    (parent : Option Nat) (nu now : Nat)
    (hfresh : nu ∉ db.map TodoModel.uuid)
    (hp : ∀ p, parent = some p → ∃ t ∈ db, t.uuid = p) :
    (add_todo db title description parent nu now).1 =
      Except.ok { uuid := nu, title := title, description := description,
                  parent_uuid := parent } ∧
    (add_todo db title description parent nu now).2 =
      db ++ [{ uuid := nu, title := title, description := description,
               parent_uuid := parent, created_at := now,
               updated_at := now }] ∧
    (UuidNodup db →
      UuidNodup (add_todo db title description parent nu now).2) ∧
    queryFirstByUuid (add_todo db title description parent nu now).2 nu =
      some { uuid := nu, title := title, description := description,
             parent_uuid := parent, created_at := now,
             updated_at := now } := by
  rcases create_no_title_validation db title description parent nu now hp with
    ⟨h1, h2⟩
  refine ⟨h1, h2, ?_, ?_⟩
  · intro hN
    rw [h2]
    simp only [UuidNodup, List.map_append, List.map_cons, List.map_nil]
    rw [List.nodup_append]
    refine ⟨hN, by simp, ?_⟩
    intro a ha hb
    simp only [List.mem_cons, List.not_mem_nil, or_false] at hb
    exact hfresh (hb ▸ ha)
  · rw [h2, queryFirstByUuid, List.find?_append]
    have hnone : queryFirstByUuid db nu = none :=
      queryFirst_eq_none_iff.mpr
        (fun t ht he => hfresh (he ▸ List.mem_map_of_mem TodoModel.uuid ht))
    rw [show List.find? (fun t => t.uuid == nu) db = queryFirstByUuid db nu
        from rfl, hnone]
    simp

theorem create_success_witness :
    (add_todo exDb "t" "d" (some 1) 9 4).1 =
      Except.ok { uuid := 9, title := "t", description := "d",
                  parent_uuid := some 1 } ∧
    queryFirstByUuid (add_todo exDb "t" "d" (some 1) 9 4).2 9 =
      some { uuid := 9, title := "t", description := "d",
             parent_uuid := some 1, created_at := 4, updated_at := 4 } := by
  have h := create_success_spec exDb "t" "d" (some 1) 9 4 (by decide)
    (fun p hp => by cases hp; decide)
  exact ⟨h.1, h.2.2.2⟩

end TodoApp
